import Mathlib

/-!
Verification of the event model, extensible-record codec and event dispatch
operations of the stream-chat client library.

The wire format is modelled by a JSON-like value type `JVal`; a flat
document (one JSON object) is an association list `JDoc` from string keys
to values.  Go objects are unordered maps, so theorems about documents are
stated through key lookup (`jget`) or through the association list produced
by a fixed construction order.

The typed entities `Event` and `UserCustomEvent` follow the Go struct
declarations field by field, including each field's `omitempty` rule.
Go's `encoding/json` semantics for the shadow struct types `eventForJSON`
and `userCustomEventForJSON` is embedded directly: marshalling emits the
wire-visible fields in struct order, unmarshalling reads each known field
by its wire name with Go's conventions (absent or `null` leaves the zero
value; a value of the wrong wire type is an error).  A Go `time.Time` is
carried as its opaque wire string; `omitempty` on a struct-typed field has
no effect in Go, so `created_at` is always emitted.
-/

namespace StreamChat

/-- A JSON-like wire value. -/
inductive JVal where
  | null : JVal
  | bool : Bool → JVal
  | num : Int → JVal
  | str : String → JVal
  | arr : List JVal → JVal
  | obj : List (String × JVal) → JVal

/-- A flat wire document: one JSON object as an association list. -/
abbrev JDoc := List (String × JVal)

/-- Key lookup in a document (first occurrence wins, as keys are unique). -/
def jget (k : String) : JDoc → Option JVal
  | [] => none
  | (k', v) :: rest => if k = k' then some v else jget k rest

/-- A field that is emitted only when present: `optKV k (some v)` is the
one-entry document `[(k, v)]`, `optKV k none` is empty (omitted field). -/
def optKV (k : String) (v : Option JVal) : JDoc :=
  match v with
  | none => []
  | some v => [(k, v)]

/-- The `omitempty` rule for a Go `string` field: omitted when empty. -/
def strOmitEmpty (k : String) (s : String) : JDoc :=
  optKV k (if s = "" then none else some (.str s))

/-- Go `json.Unmarshal` of a document key into a `string` field: absent or
`null` leaves the zero value `""`; a non-string value is an error. -/
def decStr (d : JDoc) (k : String) : Option String :=
  match jget k d with
  | none => some ""
  | some JVal.null => some ""
  | some (JVal.str s) => some s
  | some _ => none

/-- Go `json.Unmarshal` of a document key into an `int` field. -/
def decInt (d : JDoc) (k : String) : Option Int :=
  match jget k d with
  | none => some 0
  | some JVal.null => some 0
  | some (JVal.num n) => some n
  | some _ => none

/-- Go `json.Unmarshal` of a document key into a pointer field: absent or
`null` gives the nil pointer, otherwise the pointed-to value is decoded. -/
def decPtr {α : Type} (d : JDoc) (k : String) (p : JVal → Option α) :
    Option (Option α) :=
  match jget k d with
  | none => some none
  | some JVal.null => some none
  | some v => (p v).map some

/-- Decode every element of a JSON array. -/
def decodeAll {α : Type} (p : JVal → Option α) : List JVal → Option (List α)
  | [] => some []
  | v :: vs =>
    match p v with
    | none => none
    | some a => (decodeAll p vs).map (a :: ·)

/-- Go `json.Unmarshal` of a document key into a slice field: absent or
`null` gives the empty (nil) slice. -/
def decList {α : Type} (d : JDoc) (k : String) (p : JVal → Option α) :
    Option (List α) :=
  match jget k d with
  | none => some []
  | some JVal.null => some []
  | some (JVal.arr vs) => decodeAll p vs
  | some _ => none

/-- Modelled from the spec: the embedded message snapshot (its struct
declaration is not part of the sources under verification).  A Go struct
value marshals to a JSON object; the object's fields are carried opaquely. -/
structure Message where
  payload : JDoc

def Message.toJson (m : Message) : JVal := JVal.obj m.payload

def Message.ofJson : JVal → Option Message
  | JVal.obj fs => some ⟨fs⟩
  | _ => none

/-- Modelled from the spec: the embedded reaction snapshot, carried opaquely
as the fields of its JSON object. -/
structure Reaction where
  payload : JDoc

def Reaction.toJson (r : Reaction) : JVal := JVal.obj r.payload

def Reaction.ofJson : JVal → Option Reaction
  | JVal.obj fs => some ⟨fs⟩
  | _ => none

/-- Modelled from the spec: a channel member snapshot, carried opaquely as
the fields of its JSON object. -/
structure ChannelMember where
  payload : JDoc

def ChannelMember.toJson (m : ChannelMember) : JVal := JVal.obj m.payload

def ChannelMember.ofJson : JVal → Option ChannelMember
  | JVal.obj fs => some ⟨fs⟩
  | _ => none

/-- Modelled from the spec: the channel handle.  `SendEvent` routes on its
channel type and id; as an embedded snapshot it is carried as an object
holding those two attributes. -/
structure Channel where
  type : String
  id : String

def Channel.toJson (c : Channel) : JVal :=
  JVal.obj [("type", .str c.type), ("id", .str c.id)]

def Channel.ofJson : JVal → Option Channel
  | JVal.obj fs => do
    let t ← decStr fs "type"
    let i ← decStr fs "id"
    some ⟨t, i⟩
  | _ => none

/-- Modelled from the spec: the user reference; dispatch builds a minimal
identity from the acting user id, so the model carries the `id` attribute. -/
structure User where
  id : String

def User.toJson (u : User) : JVal := JVal.obj [("id", .str u.id)]

def User.ofJson : JVal → Option User
  | JVal.obj fs => (decStr fs "id").map User.mk
  | _ => none

/-- A Go `time.Time`, abstracted to its wire string (RFC 3339 rendering);
the zero time renders as `0001-01-01T00:00:00Z`. -/
structure Time where
  wire : String

def Time.zero : Time := ⟨"0001-01-01T00:00:00Z"⟩

def Time.toJson (t : Time) : JVal := JVal.str t.wire

/-- Decode a `created_at` key: absent or `null` is the zero time. -/
def decTime (d : JDoc) (k : String) : Option Time :=
  match jget k d with
  | none => some Time.zero
  | some JVal.null => some Time.zero
  | some (JVal.str s) => some ⟨s⟩
  | some _ => none

/-- `EventType` marks which of the various sub-types of a webhook event you
are receiving or sending; an open string domain at the wire level. -/
abbrev EventType := String

def EventMessageNew : EventType := "message.new"

def EventMessageUpdated : EventType := "message.updated"

def EventMessageDeleted : EventType := "message.deleted"

def EventMessageRead : EventType := "message.read"

def EventReactionNew : EventType := "reaction.new"

def EventReactionDeleted : EventType := "reaction.deleted"

def EventMemberAdded : EventType := "member.added"

def EventMemberUpdated : EventType := "member.updated"

def EventMemberRemoved : EventType := "member.removed"

def EventChannelCreated : EventType := "channel.created"

def EventChannelUpdated : EventType := "channel.updated"

def EventChannelDeleted : EventType := "channel.deleted"

def EventChannelTruncated : EventType := "channel.truncated"

def EventHealthCheck : EventType := "health.check"

def EventNotificationNewMessage : EventType := "notification.message_new"

def EventNotificationMarkRead : EventType := "notification.mark_read"

def EventNotificationInvited : EventType := "notification.invited"

def EventNotificationInviteAccepted : EventType := "notification.invite_accepted"

def EventNotificationAddedToChannel : EventType := "notification.added_to_channel"

def EventNotificationRemovedFromChannel : EventType := "notification.removed_from_channel"

def EventNotificationMutesUpdated : EventType := "notification.mutes_updated"

def EventTypingStart : EventType := "typing.start"

def EventTypingStop : EventType := "typing.stop"

def EventUserMuted : EventType := "user.muted"

def EventUserUnmuted : EventType := "user.unmuted"

def EventUserPresenceChanged : EventType := "user.presence.changed"

def EventUserWatchingStart : EventType := "user.watching.start"

def EventUserWatchingStop : EventType := "user.watching.stop"

def EventUserUpdated : EventType := "user.updated"

/-- `Event` is received from a webhook, or sent with the `SendEvent`
function.  Fields mirror the Go struct declaration in order; `extraData`
carries the open key/value overlay (json tag `-`, never marshalled as a
struct field). -/
structure Event where
  cid : String := ""
  type : EventType := ""
  message : Option Message := none
  reaction : Option Reaction := none
  channel : Option Channel := none
  member : Option ChannelMember := none
  members : List ChannelMember := []
  user : Option User := none
  userID : String := ""
  ownUser : Option User := none
  watcherCount : Int := 0
  extraData : JDoc := []
  createdAt : Time := Time.zero

/-- The wire names of `Event`'s known fields, in struct order. -/
def eventWireNames : List String :=
  ["cid", "type", "message", "reaction", "channel", "member", "members",
   "user", "user_id", "me", "watcher_count", "created_at"]

/-- Go `json.Marshal` of the shadow struct `eventForJSON`: the wire-visible
key/value set of the known fields, in struct order, applying each field's
own `omitempty` rule.  `type` carries no `omitempty`; `created_at` is a
struct-typed field, on which Go's `omitempty` has no effect, so it is
always emitted. -/
def eventKnownDoc (e : Event) : JDoc :=
  strOmitEmpty "cid" e.cid ++
  optKV "type" (some (.str e.type)) ++
  optKV "message" (e.message.map Message.toJson) ++
  optKV "reaction" (e.reaction.map Reaction.toJson) ++
  optKV "channel" (e.channel.map Channel.toJson) ++
  optKV "member" (e.member.map ChannelMember.toJson) ++
  optKV "members"
    (if e.members.isEmpty then none
     else some (.arr (e.members.map ChannelMember.toJson))) ++
  optKV "user" (e.user.map User.toJson) ++
  strOmitEmpty "user_id" e.userID ++
  optKV "me" (e.ownUser.map User.toJson) ++
  optKV "watcher_count"
    (if e.watcherCount = 0 then none else some (.num e.watcherCount)) ++
  optKV "created_at" (some e.createdAt.toJson)

/-- Go `json.Unmarshal` of a flat document into the shadow struct
`eventForJSON`: each known field is read by its wire name, unknown keys are
ignored, and a known field whose value has the wrong wire type is an
error.  The result carries an empty `extraData` (its json tag is `-`). -/
def decodeEventFields (fs : JDoc) : Option Event := do
  let cid ← decStr fs "cid"
  let ty ← decStr fs "type"
  let message ← decPtr fs "message" Message.ofJson
  let reaction ← decPtr fs "reaction" Reaction.ofJson
  let channel ← decPtr fs "channel" Channel.ofJson
  let member ← decPtr fs "member" ChannelMember.ofJson
  let members ← decList fs "members" ChannelMember.ofJson
  let user ← decPtr fs "user" User.ofJson
  let userID ← decStr fs "user_id"
  let ownUser ← decPtr fs "me" User.ofJson
  let watcherCount ← decInt fs "watcher_count"
  let createdAt ← decTime fs "created_at"
  some { cid := cid, type := ty, message := message, reaction := reaction,
         channel := channel, member := member, members := members,
         user := user, userID := userID, ownUser := ownUser,
         watcherCount := watcherCount, extraData := [],
         createdAt := createdAt }

/-- Modelled from the spec: `removeFromMap` (its defining source file is not
among the sources under verification).  It computes the extra map as the
document with every key that matches a known field's wire name removed,
regardless of whether that known field was present or non-empty in this
particular document — removal is schema-driven, not value-driven. -/
def removeFromMap (m : JDoc) (names : List String) : JDoc :=
  m.filter (fun kv => !(names.contains kv.1))

/-- Modelled from the spec: `addToMapAndMarshal` (its defining source file
is not among the sources under verification).  It produces the wire-visible
key/value set of the known fields, then merges in every key from the extra
map that is not already one of those wire-visible keys: known-field values
take precedence over same-named extra entries. -/
def addToMapAndMarshal (extra : JDoc) (known : JDoc) : JDoc :=
  known ++ extra.filter (fun kv => (jget kv.1 known).isNone)

/-- The flat document produced by `Event.MarshalJSON`. -/
def Event.marshalDoc (e : Event) : JDoc :=
  addToMapAndMarshal e.extraData (eventKnownDoc e)

/-- `Event.MarshalJSON`: one flat JSON object. -/
def Event.marshalJSON (e : Event) : JVal := JVal.obj (Event.marshalDoc e)

/-- `Event.UnmarshalJSON`: decode the typed fields via the shadow struct,
then take the whole document as the extra map and strip every known wire
name from it.  Go's `json.Unmarshal` of the document `null` into a struct
or into a map is a no-op, so decoding `null` succeeds with the zero-valued
event and an empty extra map.  Any other non-object document is an error,
and the error propagates with no partially decoded value. -/
def Event.unmarshalJSON : JVal → Option Event
  | JVal.obj fs => do
    let e ← decodeEventFields fs
    some { e with extraData := removeFromMap fs eventWireNames }
  | JVal.null => some {}
  | _ => none

/-- `UserCustomEvent` is a custom event sent to a particular user.  Its
`type` is a free-form string, not restricted to the enumeration. -/
structure UserCustomEvent where
  type : String := ""
  extraData : JDoc := []
  createdAt : Time := Time.zero

/-- The wire names of `UserCustomEvent`'s known fields. -/
def userCustomEventWireNames : List String := ["type", "created_at"]

/-- Go `json.Marshal` of the shadow struct `userCustomEventForJSON`:
`type` has no `omitempty`, and `created_at` is struct-typed, so both are
always emitted. -/
def userCustomEventKnownDoc (e : UserCustomEvent) : JDoc :=
  optKV "type" (some (.str e.type)) ++
  optKV "created_at" (some e.createdAt.toJson)

/-- Go `json.Unmarshal` of a flat document into the shadow struct
`userCustomEventForJSON`. -/
def decodeUserCustomEventFields (fs : JDoc) : Option UserCustomEvent := do
  let ty ← decStr fs "type"
  let createdAt ← decTime fs "created_at"
  some { type := ty, extraData := [], createdAt := createdAt }

/-- The flat document produced by `UserCustomEvent.MarshalJSON`. -/
def UserCustomEvent.marshalDoc (e : UserCustomEvent) : JDoc :=
  addToMapAndMarshal e.extraData (userCustomEventKnownDoc e)

/-- `UserCustomEvent.MarshalJSON`: one flat JSON object. -/
def UserCustomEvent.marshalJSON (e : UserCustomEvent) : JVal :=
  JVal.obj (UserCustomEvent.marshalDoc e)

/-- `UserCustomEvent.UnmarshalJSON`, same shape as `Event.UnmarshalJSON`,
including the no-op success on the document `null`. -/
def UserCustomEvent.unmarshalJSON : JVal → Option UserCustomEvent
  | JVal.obj fs => do
    let e ← decodeUserCustomEventFields fs
    some { e with extraData := removeFromMap fs userCustomEventWireNames }
  | JVal.null => some {}
  | _ => none

/-- The upper-case hexadecimal digit for `n < 16`. -/
def hexDigitChar (n : Nat) : Char :=
  if n < 10 then Char.ofNat (48 + n) else Char.ofNat (55 + n)

/-- Go `url.shouldEscape` for a path segment (`encodePathSegment` mode):
unreserved bytes (alphanumerics and `-._~`) and the sub-delimiters
`$&+:=@` stay literal; everything else — in particular `/`, `;`, `,`,
`?`, space and all non-ASCII bytes — is percent-encoded. -/
def byteShouldEscape (b : Nat) : Bool :=
  if (0x30 ≤ b ∧ b ≤ 0x39) ∨ (0x41 ≤ b ∧ b ≤ 0x5a) ∨ (0x61 ≤ b ∧ b ≤ 0x7a) ∨
     b = 0x2d ∨ b = 0x5f ∨ b = 0x2e ∨ b = 0x7e ∨
     b = 0x24 ∨ b = 0x26 ∨ b = 0x2b ∨ b = 0x3a ∨ b = 0x3d ∨ b = 0x40
  then false else true

/-- One escaped output fragment per input byte: `%XX` with upper-case hex
digits when the byte must be escaped, the literal byte otherwise. -/
def escByteChars (b : Nat) : List Char :=
  if byteShouldEscape b then ['%', hexDigitChar (b / 16), hexDigitChar (b % 16)]
  else [Char.ofNat b]

/-- The UTF-8 encoding of a character, as byte values. -/
def utf8Bytes (c : Char) : List Nat :=
  let n := c.toNat
  if n < 0x80 then [n]
  else if n < 0x800 then [0xc0 + n / 0x40, 0x80 + n % 0x40]
  else if n < 0x10000 then
    [0xe0 + n / 0x1000, 0x80 + (n / 0x40) % 0x40, 0x80 + n % 0x40]
  else
    [0xf0 + n / 0x40000, 0x80 + (n / 0x1000) % 0x40,
     0x80 + (n / 0x40) % 0x40, 0x80 + n % 0x40]

/-- Go `url.PathEscape`: percent-encode a string so it can be safely placed
inside a URL path segment; operates byte-wise on the UTF-8 encoding. -/
def pathEscape (s : String) : String :=
  String.mk ((s.data.flatMap utf8Bytes).flatMap escByteChars)

/-- Split a character list on `/`, yielding the path's segments. -/
def splitSlashAux : List Char → List Char → List String
  | [], cur => [String.mk cur.reverse]
  | c :: cs, cur =>
    if c = '/' then String.mk cur.reverse :: splitSlashAux cs []
    else splitSlashAux cs (c :: cur)

/-- The segments of a path string (split on `/`). -/
def splitSlash (s : String) : List String := splitSlashAux s.data []

/-- The segment loop of Go `path.Clean`: drop empty and `.` segments, let a
`..` segment backtrack over the previous real segment (a rooted path drops
a leading `..`, a relative path keeps it).  The accumulator holds the
output segments in reverse. -/
def cleanSegsAux (rooted : Bool) : List String → List String → List String
  | acc, [] => acc.reverse
  | acc, s :: rest =>
    if s = "" ∨ s = "." then cleanSegsAux rooted acc rest
    else if s = ".." then
      match acc with
      | [] =>
        if rooted then cleanSegsAux rooted [] rest
        else cleanSegsAux rooted [".."] rest
      | a :: as =>
        if a = ".." then cleanSegsAux rooted (s :: a :: as) rest
        else cleanSegsAux rooted as rest
    else cleanSegsAux rooted (s :: acc) rest

/-- Go `strings.Join` with separator `/`. -/
def joinSegs : List String → String
  | [] => ""
  | [s] => s
  | s :: rest => s ++ "/" ++ joinSegs rest

/-- Whether a path is rooted (begins with a slash). -/
def isRooted (p : String) : Bool :=
  match p.data with
  | [] => false
  | c :: _ => c == '/'

/-- Go `path.Clean`: the shortest lexically equivalent path. -/
def pathClean (p : String) : String :=
  if p = "" then "."
  else
    let rooted := isRooted p
    let body := joinSegs (cleanSegsAux rooted [] (splitSlash p))
    if rooted then "/" ++ body
    else if body = "" then "." else body

/-- Go `path.Join`: join the non-empty elements with slashes, then `Clean`
the result; all empty elements give the empty path. -/
def pathJoin (elems : List String) : String :=
  let es := elems.dropWhile (· == "")
  if es.isEmpty then "" else pathClean (joinSegs es)

/-- The request handed to the external transport collaborator
(`makeRequest`): this core supplies the method, the path and the envelope
body; the transport performs the HTTP call and its response is passed back
verbatim, so the model verifies dispatch up to the built request. -/
structure Request where
  method : String
  path : String
  body : JVal

/-- `http.MethodPost`. -/
def methodPost : String := "POST"

/-- The top-level client handle; its transport internals are external
collaborators and carry no state relevant to dispatch. -/
structure Client where
  mk ::

/-- `Channel.SendEvent`: reject a nil event before anything else; otherwise
set the event's user reference to a minimal identity built from the acting
user id (overwriting whatever was present), wrap the event in the
`{"event": ...}` envelope and issue one POST request to
`path.Join("channels", url.PathEscape(ch.Type), url.PathEscape(ch.ID),
"event")`.  The returned pair carries the built request and the mutated
event; on the error branch no request exists and the event is untouched. -/
def Channel.sendEvent (ch : Channel) (event : Option Event) (userID : String) :
    Except String (Request × Event) :=
  match event with
  | none => Except.error "event is nil"
  | some e =>
    let e := { e with user := some ⟨userID⟩ }
    Except.ok
      ({ method := methodPost,
         path := pathJoin ["channels", pathEscape ch.type, pathEscape ch.id, "event"],
         body := JVal.obj [("event", Event.marshalJSON e)] }, e)

/-- `Client.SendUserCustomEvent`: reject a nil event, then an empty target
user id, before any request is built; otherwise wrap the event in the
`{"event": ...}` envelope and issue one POST request to
`path.Join("users", url.PathEscape(targetUserID), "event")`. -/
def Client.sendUserCustomEvent (_c : Client) (targetUserID : String)
    (event : Option UserCustomEvent) : Except String Request :=
  match event with
  | none => Except.error "event is nil"
  | some e =>
    if targetUserID = "" then Except.error "targetUserID should not be empty"
    else
      Except.ok
        { method := methodPost,
          path := pathJoin ["users", pathEscape targetUserID, "event"],
          body := JVal.obj [("event", UserCustomEvent.marshalJSON e)] }

/-- A sample event with every struct field set and a two-entry extra map,
used as a concrete test vector. -/
def sampleEvent : Event :=
  { cid := "messaging:general", type := EventMessageNew,
    message := some ⟨[("text", .str "hi")]⟩,
    reaction := some ⟨[("type", .str "like")]⟩,
    channel := some ⟨"messaging", "general"⟩,
    member := some ⟨[("user_id", .str "bob")]⟩,
    members := [⟨[("user_id", .str "bob")]⟩, ⟨[("user_id", .str "carol")]⟩],
    user := some ⟨"alice"⟩, userID := "alice",
    ownUser := some ⟨"me"⟩, watcherCount := 5,
    extraData := [("foo", .str "bar"), ("answer", .num 42)],
    createdAt := ⟨"2021-06-04T12:00:00Z"⟩ }

/-- A sample custom user event with an extra entry, used as a concrete test
vector. -/
def sampleUCEvent : UserCustomEvent :=
  { type := "friend.request", extraData := [("k", .bool true)],
    createdAt := ⟨"2021-06-04T12:00:00Z"⟩ }

/-! ### Lookup lemmas over constructed documents -/

theorem jget_optKV_skip {k k' : String} (h : k ≠ k') (v : Option JVal)
    (rest : JDoc) : jget k (optKV k' v ++ rest) = jget k rest := by
  cases v with
  | none => rfl
  | some w => simp [optKV, jget, h]

theorem jget_strOmit_skip {k k' : String} (h : k ≠ k') (s : String)
    (rest : JDoc) : jget k (strOmitEmpty k' s ++ rest) = jget k rest := by
  unfold strOmitEmpty
  exact jget_optKV_skip h _ rest

theorem jget_optKV_self (k : String) (v : Option JVal) (rest : JDoc) :
    jget k (optKV k v ++ rest) =
      match v with
      | none => jget k rest
      | some w => some w := by
  cases v with
  | none => rfl
  | some w => simp [optKV, jget]

theorem jget_strOmit_self (k s : String) (rest : JDoc) :
    jget k (strOmitEmpty k s ++ rest) =
      if s = "" then jget k rest else some (.str s) := by
  by_cases h : s = "" <;> simp [strOmitEmpty, optKV, jget, h]

theorem mem_optKV {q : String × JVal} {k : String} {v : Option JVal}
    (h : q ∈ optKV k v) : q.1 = k := by
  cases v with
  | none => simp [optKV] at h
  | some w => simp [optKV] at h; simp [h]

/-! ### Inverse lemmas for the embedded snapshots -/

theorem ofJson_toJson_message (m : Message) :
    Message.ofJson (Message.toJson m) = some m := rfl

theorem ofJson_toJson_reaction (r : Reaction) :
    Reaction.ofJson (Reaction.toJson r) = some r := rfl

theorem ofJson_toJson_channelMember (m : ChannelMember) :
    ChannelMember.ofJson (ChannelMember.toJson m) = some m := rfl

theorem ofJson_toJson_user (u : User) :
    User.ofJson (User.toJson u) = some u := by
  simp [User.ofJson, User.toJson, decStr, jget]

theorem ofJson_toJson_channel (c : Channel) :
    Channel.ofJson (Channel.toJson c) = some c := by
  simp +decide [Channel.ofJson, Channel.toJson, decStr, jget]

theorem decodeAll_map_toJson (ms : List ChannelMember) :
    decodeAll ChannelMember.ofJson (ms.map ChannelMember.toJson) = some ms := by
  induction ms with
  | nil => rfl
  | cons m rest ih =>
    simp [decodeAll, ChannelMember.toJson, ChannelMember.ofJson, ih]

/-! ### Lookup of each wire name in an encoded event document -/

theorem jget_known_cid (e : Event) (X : JDoc) :
    jget "cid" (eventKnownDoc e ++ X) =
      if e.cid = "" then jget "cid" X else some (.str e.cid) := by
  by_cases h : e.cid = "" <;>
    simp +decide [eventKnownDoc, List.append_assoc, h,
      jget_optKV_skip, jget_strOmit_skip, jget_optKV_self, jget_strOmit_self]

theorem jget_known_type (e : Event) (X : JDoc) :
    jget "type" (eventKnownDoc e ++ X) = some (.str e.type) := by
  simp +decide [eventKnownDoc, List.append_assoc,
    jget_optKV_skip, jget_strOmit_skip, jget_optKV_self]

theorem jget_known_user (e : Event) (X : JDoc) :
    jget "user" (eventKnownDoc e ++ X) =
      match e.user with
      | none => jget "user" X
      | some u => some (User.toJson u) := by
  cases hu : e.user <;>
    simp +decide [eventKnownDoc, List.append_assoc, hu,
      jget_optKV_skip, jget_strOmit_skip, jget_optKV_self]

theorem jget_known_message (e : Event) (X : JDoc) :
    jget "message" (eventKnownDoc e ++ X) =
      match e.message with
      | none => jget "message" X
      | some m => some (Message.toJson m) := by
  cases hm : e.message <;>
    simp +decide [eventKnownDoc, List.append_assoc, hm,
      jget_optKV_skip, jget_strOmit_skip, jget_optKV_self]

theorem jget_known_reaction (e : Event) (X : JDoc) :
    jget "reaction" (eventKnownDoc e ++ X) =
      match e.reaction with
      | none => jget "reaction" X
      | some r => some (Reaction.toJson r) := by
  cases hr : e.reaction <;>
    simp +decide [eventKnownDoc, List.append_assoc, hr,
      jget_optKV_skip, jget_strOmit_skip, jget_optKV_self]

theorem jget_known_channel (e : Event) (X : JDoc) :
    jget "channel" (eventKnownDoc e ++ X) =
      match e.channel with
      | none => jget "channel" X
      | some c => some (Channel.toJson c) := by
  cases hc : e.channel <;>
    simp +decide [eventKnownDoc, List.append_assoc, hc,
      jget_optKV_skip, jget_strOmit_skip, jget_optKV_self]

theorem jget_known_member (e : Event) (X : JDoc) :
    jget "member" (eventKnownDoc e ++ X) =
      match e.member with
      | none => jget "member" X
      | some m => some (ChannelMember.toJson m) := by
  cases hm : e.member <;>
    simp +decide [eventKnownDoc, List.append_assoc, hm,
      jget_optKV_skip, jget_strOmit_skip, jget_optKV_self]

theorem jget_known_members (e : Event) (X : JDoc) :
    jget "members" (eventKnownDoc e ++ X) =
      if e.members.isEmpty then jget "members" X
      else some (.arr (e.members.map ChannelMember.toJson)) := by
  by_cases hm : e.members.isEmpty <;>
    simp +decide [eventKnownDoc, List.append_assoc, hm,
      jget_optKV_skip, jget_strOmit_skip, jget_optKV_self]

theorem jget_known_user_id (e : Event) (X : JDoc) :
    jget "user_id" (eventKnownDoc e ++ X) =
      if e.userID = "" then jget "user_id" X else some (.str e.userID) := by
  by_cases h : e.userID = "" <;>
    simp +decide [eventKnownDoc, List.append_assoc, h,
      jget_optKV_skip, jget_strOmit_skip, jget_optKV_self, jget_strOmit_self]

theorem jget_known_me (e : Event) (X : JDoc) :
    jget "me" (eventKnownDoc e ++ X) =
      match e.ownUser with
      | none => jget "me" X
      | some u => some (User.toJson u) := by
  cases hu : e.ownUser <;>
    simp +decide [eventKnownDoc, List.append_assoc, hu,
      jget_optKV_skip, jget_strOmit_skip, jget_optKV_self]

theorem jget_known_watcher_count (e : Event) (X : JDoc) :
    jget "watcher_count" (eventKnownDoc e ++ X) =
      if e.watcherCount = 0 then jget "watcher_count" X
      else some (.num e.watcherCount) := by
  by_cases h : e.watcherCount = 0 <;>
    simp +decide [eventKnownDoc, List.append_assoc, h,
      jget_optKV_skip, jget_strOmit_skip, jget_optKV_self]

theorem jget_known_created_at (e : Event) (X : JDoc) :
    jget "created_at" (eventKnownDoc e ++ X) = some (.str e.createdAt.wire) := by
  simp +decide [eventKnownDoc, List.append_assoc, Time.toJson,
    jget_optKV_skip, jget_strOmit_skip, jget_optKV_self]

theorem jget_known_skip_all (e : Event) (X : JDoc) (k : String)
    (hk : k ∉ eventWireNames) :
    jget k (eventKnownDoc e ++ X) = jget k X := by
  simp [eventWireNames] at hk
  obtain ⟨h1, h2, h3, h4, h5, h6, h7, h8, h9, h10, h11, h12⟩ := hk
  simp only [eventKnownDoc, List.append_assoc]
  rw [jget_strOmit_skip h1, jget_optKV_skip h2, jget_optKV_skip h3,
    jget_optKV_skip h4, jget_optKV_skip h5, jget_optKV_skip h6,
    jget_optKV_skip h7, jget_optKV_skip h8, jget_strOmit_skip h9,
    jget_optKV_skip h10, jget_optKV_skip h11, jget_optKV_skip h12]

/-! ### Decoding each known field out of an encoded event document -/

theorem dec_known_cid (e : Event) (X : JDoc) (hX : jget "cid" X = none) :
    decStr (eventKnownDoc e ++ X) "cid" = some e.cid := by
  by_cases h : e.cid = "" <;> simp [decStr, jget_known_cid, h, hX]

theorem dec_known_type (e : Event) (X : JDoc) :
    decStr (eventKnownDoc e ++ X) "type" = some e.type := by
  simp [decStr, jget_known_type]

theorem dec_known_message (e : Event) (X : JDoc) (hX : jget "message" X = none) :
    decPtr (eventKnownDoc e ++ X) "message" Message.ofJson = some e.message := by
  cases hm : e.message with
  | none => simp [decPtr, jget_known_message, hm, hX]
  | some m => simp [decPtr, jget_known_message, hm, Message.toJson, Message.ofJson]

theorem dec_known_reaction (e : Event) (X : JDoc) (hX : jget "reaction" X = none) :
    decPtr (eventKnownDoc e ++ X) "reaction" Reaction.ofJson = some e.reaction := by
  cases hr : e.reaction with
  | none => simp [decPtr, jget_known_reaction, hr, hX]
  | some r => simp [decPtr, jget_known_reaction, hr, Reaction.toJson, Reaction.ofJson]

theorem dec_known_channel (e : Event) (X : JDoc) (hX : jget "channel" X = none) :
    decPtr (eventKnownDoc e ++ X) "channel" Channel.ofJson = some e.channel := by
  cases hc : e.channel with
  | none => simp [decPtr, jget_known_channel, hc, hX]
  | some c =>
    simp [decPtr, jget_known_channel, hc, Channel.toJson]
    simpa [Channel.toJson] using ofJson_toJson_channel c

theorem dec_known_member (e : Event) (X : JDoc) (hX : jget "member" X = none) :
    decPtr (eventKnownDoc e ++ X) "member" ChannelMember.ofJson = some e.member := by
  cases hm : e.member with
  | none => simp [decPtr, jget_known_member, hm, hX]
  | some m =>
    simp [decPtr, jget_known_member, hm, ChannelMember.toJson, ChannelMember.ofJson]

theorem dec_known_members (e : Event) (X : JDoc) (hX : jget "members" X = none) :
    decList (eventKnownDoc e ++ X) "members" ChannelMember.ofJson = some e.members := by
  by_cases hm : e.members.isEmpty
  · have : e.members = [] := by simpa using hm
    simp [decList, jget_known_members, hm, hX, this]
  · simp [decList, jget_known_members, hm, decodeAll_map_toJson]

theorem dec_known_user (e : Event) (X : JDoc) (hX : jget "user" X = none) :
    decPtr (eventKnownDoc e ++ X) "user" User.ofJson = some e.user := by
  cases hu : e.user with
  | none => simp [decPtr, jget_known_user, hu, hX]
  | some u =>
    simp [decPtr, jget_known_user, hu, User.toJson]
    simpa [User.toJson] using ofJson_toJson_user u

theorem dec_known_user_id (e : Event) (X : JDoc) (hX : jget "user_id" X = none) :
    decStr (eventKnownDoc e ++ X) "user_id" = some e.userID := by
  by_cases h : e.userID = "" <;> simp [decStr, jget_known_user_id, h, hX]

theorem dec_known_me (e : Event) (X : JDoc) (hX : jget "me" X = none) :
    decPtr (eventKnownDoc e ++ X) "me" User.ofJson = some e.ownUser := by
  cases hu : e.ownUser with
  | none => simp [decPtr, jget_known_me, hu, hX]
  | some u =>
    simp [decPtr, jget_known_me, hu, User.toJson]
    simpa [User.toJson] using ofJson_toJson_user u

theorem dec_known_watcher_count (e : Event) (X : JDoc)
    (hX : jget "watcher_count" X = none) :
    decInt (eventKnownDoc e ++ X) "watcher_count" = some e.watcherCount := by
  by_cases h : e.watcherCount = 0 <;>
    simp [decInt, jget_known_watcher_count, h, hX]

theorem dec_known_created_at (e : Event) (X : JDoc) :
    decTime (eventKnownDoc e ++ X) "created_at" = some e.createdAt := by
  simp [decTime, jget_known_created_at]

/-- Decoding the shadow struct out of an encoded event document reproduces
every known field, provided the trailing part of the document holds no
known wire name. -/
theorem decodeEventFields_known (e : Event) (X : JDoc)
    (hX : ∀ k ∈ eventWireNames, jget k X = none) :
    decodeEventFields (eventKnownDoc e ++ X) = some { e with extraData := [] } := by
  simp [decodeEventFields,
    dec_known_cid e X (hX "cid" (by decide)),
    dec_known_type e X,
    dec_known_message e X (hX "message" (by decide)),
    dec_known_reaction e X (hX "reaction" (by decide)),
    dec_known_channel e X (hX "channel" (by decide)),
    dec_known_member e X (hX "member" (by decide)),
    dec_known_members e X (hX "members" (by decide)),
    dec_known_user e X (hX "user" (by decide)),
    dec_known_user_id e X (hX "user_id" (by decide)),
    dec_known_me e X (hX "me" (by decide)),
    dec_known_watcher_count e X (hX "watcher_count" (by decide)),
    dec_known_created_at e X]

/-! ### The extra map under encoding and decoding -/

theorem jget_extra_none {E : JDoc} {names : List String}
    (hd : ∀ q ∈ E, q.1 ∉ names) {k : String} (hk : k ∈ names) :
    jget k E = none := by
  induction E with
  | nil => rfl
  | cons q rest ih =>
    have hq : q.1 ∉ names := hd q (by simp)
    have hne : k ≠ q.1 := fun h => hq (h ▸ hk)
    cases q with
    | mk a b =>
      simp only [jget, if_neg hne]
      exact ih fun r hr => hd r (by simp [hr])

theorem eventKnownDoc_keys (e : Event) :
    ∀ q ∈ eventKnownDoc e, q.1 ∈ eventWireNames := by
  intro q hq
  simp only [eventKnownDoc, strOmitEmpty, List.append_assoc,
    List.mem_append] at hq
  rcases hq with h | h | h | h | h | h | h | h | h | h | h | h <;>
    · have := mem_optKV h
      simp [eventWireNames, this]

/-- Under disjointness, the merge in `Event.MarshalJSON` appends the whole
extra map after the known fields. -/
theorem event_marshalDoc_eq (e : Event)
    (hd : ∀ q ∈ e.extraData, q.1 ∉ eventWireNames) :
    Event.marshalDoc e = eventKnownDoc e ++ e.extraData := by
  unfold Event.marshalDoc addToMapAndMarshal
  congr 1
  apply List.filter_eq_self.mpr
  intro q hq
  have hnone : jget q.1 (eventKnownDoc e) = none := by
    have := jget_known_skip_all e [] q.1 (hd q hq)
    simpa using this
  simp [hnone]

theorem event_removeFromMap_known (e : Event) (E : JDoc)
    (hd : ∀ q ∈ E, q.1 ∉ eventWireNames) :
    removeFromMap (eventKnownDoc e ++ E) eventWireNames = E := by
  unfold removeFromMap
  rw [List.filter_append]
  have h1 : (eventKnownDoc e).filter
      (fun kv => !(eventWireNames.contains kv.1)) = [] := by
    apply List.filter_eq_nil_iff.mpr
    intro q hq
    simp [eventKnownDoc_keys e q hq]
  have h2 : E.filter (fun kv => !(eventWireNames.contains kv.1)) = E := by
    apply List.filter_eq_self.mpr
    intro q hq
    simp [hd q hq]
  rw [h1, h2, List.nil_append]

/-- The full decode-of-encode identity for `Event`. -/
theorem event_decode_encode (e : Event)
    (hd : ∀ q ∈ e.extraData, q.1 ∉ eventWireNames) :
    Event.unmarshalJSON (Event.marshalJSON e) = some e := by
  rw [Event.marshalJSON, event_marshalDoc_eq e hd]
  simp only [Event.unmarshalJSON]
  rw [decodeEventFields_known e e.extraData (fun k hk => jget_extra_none hd hk)]
  simp [event_removeFromMap_known e e.extraData hd]

/-! ### The same development for `UserCustomEvent` -/

theorem jget_uknown_type (e : UserCustomEvent) (X : JDoc) :
    jget "type" (userCustomEventKnownDoc e ++ X) = some (.str e.type) := by
  simp +decide [userCustomEventKnownDoc, List.append_assoc, jget_optKV_self]

theorem jget_uknown_created_at (e : UserCustomEvent) (X : JDoc) :
    jget "created_at" (userCustomEventKnownDoc e ++ X) =
      some (.str e.createdAt.wire) := by
  simp +decide [userCustomEventKnownDoc, List.append_assoc, Time.toJson,
    jget_optKV_skip, jget_optKV_self]

theorem jget_uknown_skip_all (e : UserCustomEvent) (X : JDoc) (k : String)
    (hk : k ∉ userCustomEventWireNames) :
    jget k (userCustomEventKnownDoc e ++ X) = jget k X := by
  simp [userCustomEventWireNames] at hk
  obtain ⟨h1, h2⟩ := hk
  simp only [userCustomEventKnownDoc, List.append_assoc]
  rw [jget_optKV_skip h1, jget_optKV_skip h2]

theorem userCustomEventKnownDoc_keys (e : UserCustomEvent) :
    ∀ q ∈ userCustomEventKnownDoc e, q.1 ∈ userCustomEventWireNames := by
  intro q hq
  simp only [userCustomEventKnownDoc, List.mem_append] at hq
  rcases hq with h | h <;>
    · have := mem_optKV h
      simp [userCustomEventWireNames, this]

theorem decodeUserCustomEventFields_known (e : UserCustomEvent) (X : JDoc) :
    decodeUserCustomEventFields (userCustomEventKnownDoc e ++ X) =
      some { e with extraData := [] } := by
  simp [decodeUserCustomEventFields, decStr, decTime,
    jget_uknown_type e X, jget_uknown_created_at e X]

theorem ucev_marshalDoc_eq (e : UserCustomEvent)
    (hd : ∀ q ∈ e.extraData, q.1 ∉ userCustomEventWireNames) :
    UserCustomEvent.marshalDoc e = userCustomEventKnownDoc e ++ e.extraData := by
  unfold UserCustomEvent.marshalDoc addToMapAndMarshal
  congr 1
  apply List.filter_eq_self.mpr
  intro q hq
  have hnone : jget q.1 (userCustomEventKnownDoc e) = none := by
    have := jget_uknown_skip_all e [] q.1 (hd q hq)
    simpa using this
  simp [hnone]

theorem ucev_removeFromMap_known (e : UserCustomEvent) (E : JDoc)
    (hd : ∀ q ∈ E, q.1 ∉ userCustomEventWireNames) :
    removeFromMap (userCustomEventKnownDoc e ++ E) userCustomEventWireNames = E := by
  unfold removeFromMap
  rw [List.filter_append]
  have h1 : (userCustomEventKnownDoc e).filter
      (fun kv => !(userCustomEventWireNames.contains kv.1)) = [] := by
    apply List.filter_eq_nil_iff.mpr
    intro q hq
    simp [userCustomEventKnownDoc_keys e q hq]
  have h2 : E.filter (fun kv => !(userCustomEventWireNames.contains kv.1)) = E := by
    apply List.filter_eq_self.mpr
    intro q hq
    simp [hd q hq]
  rw [h1, h2, List.nil_append]

/-- The full decode-of-encode identity for `UserCustomEvent`. -/
theorem ucev_decode_encode (e : UserCustomEvent)
    (hd : ∀ q ∈ e.extraData, q.1 ∉ userCustomEventWireNames) :
    UserCustomEvent.unmarshalJSON (UserCustomEvent.marshalJSON e) = some e := by
  rw [UserCustomEvent.marshalJSON, ucev_marshalDoc_eq e hd]
  simp only [UserCustomEvent.unmarshalJSON]
  rw [decodeUserCustomEventFields_known e e.extraData]
  simp [ucev_removeFromMap_known e e.extraData hd]

/-! ### Invariants of the decode path -/

theorem mem_removeFromMap {q : String × JVal} {m : JDoc} {names : List String}
    (h : q ∈ removeFromMap m names) : q.1 ∉ names := by
  have := List.of_mem_filter h
  simpa using this

/-- Any successful `Event` decode leaves no known wire name in the extra map. -/
theorem event_unmarshal_extra_not_wire {v : JVal} {e : Event}
    (h : Event.unmarshalJSON v = some e) :
    ∀ q ∈ e.extraData, q.1 ∉ eventWireNames := by
  cases v with
  | obj fs =>
    simp only [Event.unmarshalJSON] at h
    cases hdec : decodeEventFields fs with
    | none => rw [hdec] at h; simp at h
    | some e' =>
      rw [hdec] at h
      have he : { e' with extraData := removeFromMap fs eventWireNames } = e :=
        Option.some.inj h
      intro q hq
      rw [← he] at hq
      exact mem_removeFromMap hq
  | null =>
    simp [Event.unmarshalJSON] at h
    subst h
    intro q hq
    simp at hq
  | bool b => simp [Event.unmarshalJSON] at h
  | num n => simp [Event.unmarshalJSON] at h
  | str s => simp [Event.unmarshalJSON] at h
  | arr xs => simp [Event.unmarshalJSON] at h

/-- Any successful `UserCustomEvent` decode leaves no known wire name in the
extra map. -/
theorem ucev_unmarshal_extra_not_wire {v : JVal} {u : UserCustomEvent}
    (h : UserCustomEvent.unmarshalJSON v = some u) :
    ∀ q ∈ u.extraData, q.1 ∉ userCustomEventWireNames := by
  cases v with
  | obj fs =>
    simp only [UserCustomEvent.unmarshalJSON] at h
    cases hdec : decodeUserCustomEventFields fs with
    | none => rw [hdec] at h; simp at h
    | some u' =>
      rw [hdec] at h
      have hu : { u' with extraData := removeFromMap fs userCustomEventWireNames } = u :=
        Option.some.inj h
      intro q hq
      rw [← hu] at hq
      exact mem_removeFromMap hq
  | null =>
    simp [UserCustomEvent.unmarshalJSON] at h
    subst h
    intro q hq
    simp at hq
  | bool b => simp [UserCustomEvent.unmarshalJSON] at h
  | num n => simp [UserCustomEvent.unmarshalJSON] at h
  | str s => simp [UserCustomEvent.unmarshalJSON] at h
  | arr xs => simp [UserCustomEvent.unmarshalJSON] at h

/-! ### Claim C1 -/

/-- C1: for every known-field value set (an `Event` or a `UserCustomEvent`
with all struct fields set arbitrarily) and every extra map whose keys are
disjoint from the known fields' wire names, decoding the document produced
by encoding yields back exactly the known fields and exactly the extra
map. -/
theorem c1_roundtrip_disjoint (e : Event) (u : UserCustomEvent)
    (he : ∀ q ∈ e.extraData, q.1 ∉ eventWireNames)
    (hu : ∀ q ∈ u.extraData, q.1 ∉ userCustomEventWireNames) :
    Event.unmarshalJSON (Event.marshalJSON e) = some e ∧
    UserCustomEvent.unmarshalJSON (UserCustomEvent.marshalJSON u) = some u :=
  ⟨event_decode_encode e he, ucev_decode_encode u hu⟩

/-- C1 witness: a concrete `Event` with every struct field set and a
two-entry extra map, and a concrete `UserCustomEvent`, each round-trip to
themselves. -/
theorem c1_roundtrip_disjoint_witness :
    (∀ q ∈ sampleEvent.extraData, q.1 ∉ eventWireNames) ∧
    (∀ q ∈ sampleUCEvent.extraData, q.1 ∉ userCustomEventWireNames) ∧
    Event.unmarshalJSON (Event.marshalJSON sampleEvent) = some sampleEvent ∧
    UserCustomEvent.unmarshalJSON (UserCustomEvent.marshalJSON sampleUCEvent) =
      some sampleUCEvent := by
  refine ⟨by decide, by decide, ?_, ?_⟩
  · exact (c1_roundtrip_disjoint sampleEvent sampleUCEvent
      (by decide) (by decide)).1
  · exact (c1_roundtrip_disjoint sampleEvent sampleUCEvent
      (by decide) (by decide)).2

/-! ### Claim C3 -/

/-- C3: for every flat document that decodes successfully into an `Event`
or a `UserCustomEvent`, the resulting extra map holds no key equal to any
known field's wire name; the removal is schema-driven, so a known field
explicitly sent as the wire empty value (here `cid` sent as `""`) is still
excluded from extra. -/
theorem c3_extra_never_holds_wire_names (v w : JVal) (e : Event)
    (u : UserCustomEvent)
    (he : Event.unmarshalJSON v = some e)
    (hu : UserCustomEvent.unmarshalJSON w = some u) :
    (∀ q ∈ e.extraData, q.1 ∉ eventWireNames) ∧
    (∀ q ∈ u.extraData, q.1 ∉ userCustomEventWireNames) ∧
    (Event.unmarshalJSON
        (.obj [("type", .str "x"), ("cid", .str "")])).map Event.extraData =
      some [] :=
  ⟨event_unmarshal_extra_not_wire he, ucev_unmarshal_extra_not_wire hu, rfl⟩

/-- C3 witness: concrete decodes whose extra maps are checked against all
wire names; the event document carries `cid` explicitly as the wire empty
value and the custom-event document carries an unknown key. -/
theorem c3_extra_never_holds_wire_names_witness :
    Event.unmarshalJSON
        (.obj [("type", .str "x"), ("cid", .str ""), ("foo", .num 1)]) =
      some { type := "x", extraData := [("foo", .num 1)] } ∧
    UserCustomEvent.unmarshalJSON (.obj [("type", .str "c"), ("z", .null)]) =
      some { type := "c", extraData := [("z", .null)] } ∧
    ((∀ q ∈ ({ type := "x", extraData := [("foo", JVal.num 1)] } :
        Event).extraData, q.1 ∉ eventWireNames) ∧
     (∀ q ∈ ({ type := "c", extraData := [("z", JVal.null)] } :
        UserCustomEvent).extraData, q.1 ∉ userCustomEventWireNames) ∧
     (Event.unmarshalJSON
        (.obj [("type", .str "x"), ("cid", .str "")])).map Event.extraData =
      some []) := by
  refine ⟨rfl, rfl, ?_⟩
  exact c3_extra_never_holds_wire_names
    (.obj [("type", .str "x"), ("cid", .str ""), ("foo", .num 1)])
    (.obj [("type", .str "c"), ("z", .null)])
    { type := "x", extraData := [("foo", JVal.num 1)] }
    { type := "c", extraData := [("z", JVal.null)] } rfl rfl

/-! ### Claim C4 -/

/-- C4: decoding a document whose `type` key holds any string `s` — also
one outside the enumerated event-kind constants — succeeds with no
validation, and the decoded `Event`'s `Type` field holds exactly the
literal `s`; the other keys land in the extra map untouched. -/
theorem c4_unknown_type_decodes (s : String) (X : JDoc)
    (hX : ∀ q ∈ X, q.1 ∉ eventWireNames) :
    Event.unmarshalJSON (.obj (("type", JVal.str s) :: X)) =
      some { type := s, extraData := X } := by
  have hskip : ∀ k : String, k ≠ "type" → k ∈ eventWireNames →
      jget k (("type", JVal.str s) :: X) = none := by
    intro k hk hmem
    show jget k (optKV "type" (some (.str s)) ++ X) = none
    rw [jget_optKV_skip hk]
    exact jget_extra_none hX hmem
  have htype : decStr (("type", JVal.str s) :: X) "type" = some s := by
    simp [decStr, jget]
  have hcid : decStr (("type", JVal.str s) :: X) "cid" = some "" := by
    simp [decStr, hskip "cid" (by decide) (by decide)]
  have huid : decStr (("type", JVal.str s) :: X) "user_id" = some "" := by
    simp [decStr, hskip "user_id" (by decide) (by decide)]
  have hmsg : decPtr (("type", JVal.str s) :: X) "message" Message.ofJson =
      some none := by
    simp [decPtr, hskip "message" (by decide) (by decide)]
  have hrea : decPtr (("type", JVal.str s) :: X) "reaction" Reaction.ofJson =
      some none := by
    simp [decPtr, hskip "reaction" (by decide) (by decide)]
  have hcha : decPtr (("type", JVal.str s) :: X) "channel" Channel.ofJson =
      some none := by
    simp [decPtr, hskip "channel" (by decide) (by decide)]
  have hmem : decPtr (("type", JVal.str s) :: X) "member" ChannelMember.ofJson =
      some none := by
    simp [decPtr, hskip "member" (by decide) (by decide)]
  have hmems : decList (("type", JVal.str s) :: X) "members" ChannelMember.ofJson =
      some [] := by
    simp [decList, hskip "members" (by decide) (by decide)]
  have husr : decPtr (("type", JVal.str s) :: X) "user" User.ofJson =
      some none := by
    simp [decPtr, hskip "user" (by decide) (by decide)]
  have hme : decPtr (("type", JVal.str s) :: X) "me" User.ofJson =
      some none := by
    simp [decPtr, hskip "me" (by decide) (by decide)]
  have hwc : decInt (("type", JVal.str s) :: X) "watcher_count" = some 0 := by
    simp [decInt, hskip "watcher_count" (by decide) (by decide)]
  have hca : decTime (("type", JVal.str s) :: X) "created_at" = some Time.zero := by
    simp [decTime, hskip "created_at" (by decide) (by decide)]
  have hrm : removeFromMap (("type", JVal.str s) :: X) eventWireNames = X := by
    simp +decide only [removeFromMap, List.filter_cons]
    apply List.filter_eq_self.mpr
    intro q hq
    simp [hX q hq]
  simp [Event.unmarshalJSON, decodeEventFields, htype, hcid, huid, hmsg,
    hrea, hcha, hmem, hmems, husr, hme, hwc, hca, hrm]

/-- C4 witness: the literal future event kind of the spec decodes intact,
with the unknown payload key kept as extra data. -/
theorem c4_unknown_type_decodes_witness :
    (∀ q ∈ ([("payload", JVal.num 42)] : JDoc), q.1 ∉ eventWireNames) ∧
    Event.unmarshalJSON
        (.obj [("type", .str "some.future.event"), ("payload", .num 42)]) =
      some { type := "some.future.event",
             extraData := [("payload", JVal.num 42)] } :=
  ⟨by decide, c4_unknown_type_decodes "some.future.event"
    [("payload", JVal.num 42)] (by decide)⟩

/-! ### Claims C5, C6, C7, C10 — dispatch guards and effects -/

/-- C5: for every channel handle and acting user id, `SendEvent` with a nil
event returns the `InvalidArgument` error `event is nil`; in the model the
error branch carries no request and no mutated event, so no transport call
is made and nothing is mutated — the nil check runs before the
user-reference mutation and before the envelope is built. -/
theorem c5_sendEvent_nil_guard (ch : Channel) (userID : String) :
    Channel.sendEvent ch none userID = Except.error "event is nil" := rfl

/-- C6: `SendUserCustomEvent` returns `event is nil` on a nil event (for
every target id), and `targetUserID should not be empty` on an empty target
id (for every event); in both cases the error branch carries no request, so
no transport call is made. -/
theorem c6_sendUserCustomEvent_guards (c : Client) (targetUserID : String)
    (ev : UserCustomEvent) :
    Client.sendUserCustomEvent c targetUserID none =
      Except.error "event is nil" ∧
    Client.sendUserCustomEvent c "" (some ev) =
      Except.error "targetUserID should not be empty" :=
  ⟨rfl, rfl⟩

/-- C7: for every non-nil event and every acting user id — the empty string
included, and regardless of any pre-set user reference — `SendEvent` sets
the event's user reference to the minimal identity built from the acting
user id before building the envelope, and the transmitted document's
`user` key carries exactly that identity. -/
theorem c7_user_overwrite (ch : Channel) (e : Event) (userID : String) :
    Channel.sendEvent ch (some e) userID =
      Except.ok
        ({ method := methodPost,
           path := pathJoin ["channels", pathEscape ch.type,
             pathEscape ch.id, "event"],
           body := JVal.obj [("event",
             Event.marshalJSON { e with user := some ⟨userID⟩ })] },
         { e with user := some ⟨userID⟩ }) ∧
    jget "user" (Event.marshalDoc { e with user := some ⟨userID⟩ }) =
      some (User.toJson ⟨userID⟩) := by
  constructor
  · rfl
  · rw [Event.marshalDoc, addToMapAndMarshal, jget_known_user]

/-- C10: when both preconditions of `SendUserCustomEvent` are violated at
once (nil event and empty target id), the returned error is `event is
nil` — the nil-event check runs first. -/
theorem c10_nil_event_checked_first (c : Client) :
    Client.sendUserCustomEvent c "" none = Except.error "event is nil" := rfl

/-! ### Claim C2 -/

theorem jget_append_some {k : String} {xs : JDoc} {v : JVal}
    (h : jget k xs = some v) (ys : JDoc) : jget k (xs ++ ys) = some v := by
  induction xs with
  | nil => simp [jget] at h
  | cons q rest ih =>
    cases q with
    | mk a b =>
      by_cases hk : k = a
      · simpa [jget, hk] using h
      · simp only [List.cons_append, jget, if_neg hk] at h ⊢
        exact ih h

/-- C2 counterexample: with the known field `cid` set to its empty value
(and hence omitted by its `omitempty` rule), an extra entry under the known
wire name `cid` does end up in the encoded document with the extra map's
value `"bogus"`, not the known field's value `""` — so a colliding extra
key under the wire name of an *omitted* known field is not shadowed, and
the claim's universally quantified precedence statement fails at this
input. -/
theorem c2_known_precedence_cex :
    jget "cid" (Event.marshalDoc
      { type := "t", extraData := [("cid", JVal.str "bogus")] }) =
      some (JVal.str "bogus") ∧
    ({ type := "t", extraData := [("cid", JVal.str "bogus")] } : Event).cid =
      "" ∧
    JVal.str "bogus" ≠ JVal.str "" :=
  ⟨rfl, rfl, by simp⟩

/-- C2 amended: when a key of the extra map equals a *wire-visible* key of
the encoded known fields (a known field actually emitted under its own
omit-if-empty rule), the encoded document carries the known field's value
for that key, not the extra map's value — for `Event` and
`UserCustomEvent` alike.  In particular, `type` is always emitted: encoding
an `Event` with `Type = "message.new"` and `ExtraData = {"type": "bogus"}`
yields a document whose `type` key is `"message.new"`, and decoding that
document yields an empty extra map.  (An extra key colliding with the wire
name of an omitted known field is instead carried with the extra map's
value, as the counterexample shows.) -/
theorem c2_known_precedence_amended (e : Event) (u : UserCustomEvent)
    (k k' : String) (v v' : JVal)
    (hk : jget k (eventKnownDoc e) = some v)
    (hk' : jget k' (userCustomEventKnownDoc u) = some v') :
    jget k (Event.marshalDoc e) = some v ∧
    jget k' (UserCustomEvent.marshalDoc u) = some v' ∧
    jget "type" (Event.marshalDoc
      { type := EventMessageNew, extraData := [("type", JVal.str "bogus")] }) =
      some (JVal.str EventMessageNew) ∧
    (Event.unmarshalJSON (Event.marshalJSON
      { type := EventMessageNew, extraData := [("type", JVal.str "bogus")] })).map
        Event.extraData = some [] := by
  refine ⟨?_, ?_, rfl, rfl⟩
  · rw [Event.marshalDoc, addToMapAndMarshal]
    exact jget_append_some hk _
  · rw [UserCustomEvent.marshalDoc, addToMapAndMarshal]
    exact jget_append_some hk' _

/-- C2 witness: the always-emitted `type` key of both entities resolves to
the known field's value in the merged document. -/
theorem c2_known_precedence_amended_witness :
    jget "type" (eventKnownDoc { type := "message.new" }) =
      some (JVal.str "message.new") ∧
    jget "type" (userCustomEventKnownDoc { type := "friend.request" }) =
      some (JVal.str "friend.request") ∧
    (jget "type" (Event.marshalDoc { type := "message.new" }) =
      some (JVal.str "message.new") ∧
    jget "type" (UserCustomEvent.marshalDoc { type := "friend.request" }) =
      some (JVal.str "friend.request") ∧
    jget "type" (Event.marshalDoc
      { type := EventMessageNew, extraData := [("type", JVal.str "bogus")] }) =
      some (JVal.str EventMessageNew) ∧
    (Event.unmarshalJSON (Event.marshalJSON
      { type := EventMessageNew, extraData := [("type", JVal.str "bogus")] })).map
        Event.extraData = some []) := by
  refine ⟨rfl, rfl, ?_⟩
  exact c2_known_precedence_amended { type := "message.new" }
    { type := "friend.request" } "type" "type"
    (JVal.str "message.new") (JVal.str "friend.request") rfl rfl

/-! ### Claim C9 -/

/-- C9 counterexample: decoding was claimed to fail *exactly* when the
input is not a flat key/value object, but a perfectly flat object whose
known-field value has the wrong wire type also fails — here
`watcher_count` (an `int` field) sent as a string, and `created_at` sent
as a number. -/
theorem c9_malformed_cex :
    Event.unmarshalJSON
      (.obj [("type", .str "x"), ("watcher_count", .str "boom")]) = none ∧
    UserCustomEvent.unmarshalJSON (.obj [("created_at", .num 3)]) = none :=
  ⟨rfl, rfl⟩

/-- C9 amended: decoding the JSON document `null` succeeds with the
zero-valued entity and an empty extra map (Go's `json.Unmarshal` of `null`
into a struct or a map is a no-op); decoding fails on every other input
that is not a flat key/value object, and the failure propagates with no
partially decoded value (the decoder returns nothing at all); decoding can
additionally fail on a flat object in which a known field's value has the
wrong wire type. -/
theorem c9_malformed_amended (v : JVal) (hobj : ∀ fs : JDoc, v ≠ JVal.obj fs)
    (hnull : v ≠ JVal.null) :
    (Event.unmarshalJSON v = none ∧
     UserCustomEvent.unmarshalJSON v = none) ∧
    Event.unmarshalJSON JVal.null = some {} ∧
    UserCustomEvent.unmarshalJSON JVal.null = some {} := by
  refine ⟨?_, rfl, rfl⟩
  cases v with
  | obj fs => exact absurd rfl (hobj fs)
  | null => exact absurd rfl hnull
  | bool b => exact ⟨rfl, rfl⟩
  | num n => exact ⟨rfl, rfl⟩
  | str s => exact ⟨rfl, rfl⟩
  | arr xs => exact ⟨rfl, rfl⟩

/-- C9 witness: a non-object, non-null wire value (a bare string, e.g.
truncated or scalar wire data) fails to decode for both entities, while
the document `null` decodes to the zero-valued entities. -/
theorem c9_malformed_amended_witness :
    (∀ fs : JDoc, JVal.str "oops" ≠ JVal.obj fs) ∧
    JVal.str "oops" ≠ JVal.null ∧
    ((Event.unmarshalJSON (JVal.str "oops") = none ∧
      UserCustomEvent.unmarshalJSON (JVal.str "oops") = none) ∧
     Event.unmarshalJSON JVal.null = some {} ∧
     UserCustomEvent.unmarshalJSON JVal.null = some {}) :=
  ⟨fun _ h => JVal.noConfusion h, fun h => JVal.noConfusion h,
   c9_malformed_amended (JVal.str "oops") (fun _ h => JVal.noConfusion h)
     (fun h => JVal.noConfusion h)⟩

/-! ### Path machinery: escaped segments never hold a slash -/

theorem charToNat_lt (c : Char) : c.toNat < 1114112 := by
  have hv := c.valid
  have he : c.toNat = c.val.toNat := rfl
  rcases hv with h | ⟨h1, h2⟩ <;> omega

theorem utf8Bytes_lt (c : Char) : ∀ b ∈ utf8Bytes c, b < 256 := by
  intro b hb
  have hc := charToNat_lt c
  unfold utf8Bytes at hb
  by_cases h1 : c.toNat < 0x80
  · simp [h1] at hb
    omega
  · by_cases h2 : c.toNat < 0x800
    · simp [h1, h2] at hb
      rcases hb with h | h <;> omega
    · by_cases h3 : c.toNat < 0x10000
      · simp [h1, h2, h3] at hb
        rcases hb with h | h | h <;> omega
      · simp [h1, h2, h3] at hb
        rcases hb with h | h | h | h <;> omega

theorem hexDigitChar_ne_slash : ∀ n : Nat, n < 16 → hexDigitChar n ≠ '/' := by
  decide

theorem byteShouldEscape_false_bound {b : Nat}
    (h : byteShouldEscape b = false) : b ≤ 126 ∧ b ≠ 47 := by
  by_cases hc : (0x30 ≤ b ∧ b ≤ 0x39) ∨ (0x41 ≤ b ∧ b ≤ 0x5a) ∨
      (0x61 ≤ b ∧ b ≤ 0x7a) ∨ b = 0x2d ∨ b = 0x5f ∨ b = 0x2e ∨ b = 0x7e ∨
      b = 0x24 ∨ b = 0x26 ∨ b = 0x2b ∨ b = 0x3a ∨ b = 0x3d ∨ b = 0x40
  · constructor <;> omega
  · simp [byteShouldEscape, hc] at h

theorem ofNat_le_ne_slash : ∀ b : Nat, b ≤ 126 → b ≠ 47 →
    Char.ofNat b ≠ '/' := by
  decide

/-- `url.PathEscape` output never holds a literal slash: `/` itself is
percent-encoded and every emitted fragment avoids it. -/
theorem noSlash_pathEscape (s : String) : ¬ '/' ∈ (pathEscape s).data := by
  intro h
  have hdata : (pathEscape s).data =
      (s.data.flatMap utf8Bytes).flatMap escByteChars := rfl
  rw [hdata, List.mem_flatMap] at h
  obtain ⟨b, hb, hmem⟩ := h
  rw [List.mem_flatMap] at hb
  obtain ⟨c, _, hbc⟩ := hb
  have hblt : b < 256 := utf8Bytes_lt c b hbc
  by_cases hesc : byteShouldEscape b
  · rw [escByteChars, if_pos hesc] at hmem
    simp only [List.mem_cons, List.not_mem_nil, or_false] at hmem
    rcases hmem with h | h | h
    · exact absurd h (by decide)
    · exact absurd h.symm (hexDigitChar_ne_slash (b / 16) (by omega))
    · exact absurd h.symm (hexDigitChar_ne_slash (b % 16) (by omega))
  · rw [escByteChars, if_neg hesc] at hmem
    rw [Bool.not_eq_true] at hesc
    obtain ⟨hle, hne⟩ := byteShouldEscape_false_bound hesc
    simp only [List.mem_singleton] at hmem
    exact absurd hmem.symm (ofNat_le_ne_slash b hle hne)

/-! ### Path machinery: splitting, cleaning and joining good segments -/

theorem splitSlashAux_no_slash (cs : List Char) (h : ¬ '/' ∈ cs) :
    ∀ cur : List Char, splitSlashAux cs cur = [String.mk (cur.reverse ++ cs)] := by
  induction cs with
  | nil => intro cur; simp [splitSlashAux]
  | cons c cs ih =>
    intro cur
    have hc : ¬ c = '/' := fun hh => h (by simp [hh])
    have h' : ¬ '/' ∈ cs := fun hh => h (by simp [hh])
    rw [splitSlashAux, if_neg hc, ih h']
    simp

theorem splitSlashAux_slash_append (cs : List Char) (h : ¬ '/' ∈ cs)
    (ds : List Char) :
    ∀ cur : List Char, splitSlashAux (cs ++ '/' :: ds) cur =
      String.mk (cur.reverse ++ cs) :: splitSlashAux ds [] := by
  induction cs with
  | nil =>
    intro cur
    simp [splitSlashAux]
  | cons c cs ih =>
    intro cur
    have hc : ¬ c = '/' := fun hh => h (by simp [hh])
    have h' : ¬ '/' ∈ cs := fun hh => h (by simp [hh])
    rw [List.cons_append, splitSlashAux, if_neg hc, ih h']
    simp

theorem data_ne_nil_of_ne_empty {s : String} (h : s ≠ "") : s.data ≠ [] := by
  intro hd
  exact h (String.ext hd)

theorem splitSlash_joinSegs (segs : List String)
    (h : ∀ s ∈ segs, ¬ '/' ∈ s.data) (hne : segs ≠ []) :
    splitSlash (joinSegs segs) = segs := by
  induction segs with
  | nil => exact absurd rfl hne
  | cons s rest ih =>
    cases rest with
    | nil =>
      have hs : ¬ '/' ∈ s.data := h s (by simp)
      show splitSlashAux s.data [] = [s]
      rw [splitSlashAux_no_slash s.data hs []]
      simp
    | cons t ts =>
      have hs : ¬ '/' ∈ s.data := h s (by simp)
      have hdata : (joinSegs (s :: t :: ts)).data =
          s.data ++ '/' :: (joinSegs (t :: ts)).data := by
        show (s ++ "/" ++ joinSegs (t :: ts)).data = _
        simp [List.append_assoc]
      show splitSlashAux (joinSegs (s :: t :: ts)).data [] = s :: t :: ts
      rw [hdata, splitSlashAux_slash_append s.data hs _ []]
      have := ih (fun q hq => h q (by simp [hq])) (by simp)
      rw [show splitSlashAux (joinSegs (t :: ts)).data [] =
        splitSlash (joinSegs (t :: ts)) from rfl, this]
      simp

theorem cleanSegsAux_good (rooted : Bool) (segs : List String)
    (h : ∀ s ∈ segs, s ≠ "" ∧ s ≠ "." ∧ s ≠ "..") :
    ∀ acc : List String, cleanSegsAux rooted acc segs = acc.reverse ++ segs := by
  induction segs with
  | nil => intro acc; simp [cleanSegsAux]
  | cons s rest ih =>
    intro acc
    obtain ⟨h1, h2, h3⟩ := h s (by simp)
    show cleanSegsAux rooted acc (s :: rest) = acc.reverse ++ s :: rest
    rw [cleanSegsAux.eq_def]
    simp only []
    rw [if_neg (by simp [h1, h2]), if_neg h3,
      ih (fun q hq => h q (by simp [hq]))]
    simp

theorem data_append (a b : String) : (a ++ b).data = a.data ++ b.data := rfl

theorem joinSegs_ne_empty (s : String) (rest : List String) (hs : s ≠ "") :
    joinSegs (s :: rest) ≠ "" := by
  cases rest with
  | nil => simpa [joinSegs] using hs
  | cons t ts =>
    intro hcon
    have h3 := congrArg String.data hcon
    rw [show joinSegs (s :: t :: ts) = s ++ "/" ++ joinSegs (t :: ts) from rfl,
      data_append, data_append] at h3
    have h4 : ("" : String).data = [] := rfl
    rw [h4] at h3
    have h5 : ("/" : String).data = ['/'] := rfl
    rw [h5] at h3
    simp at h3

theorem isRooted_joinSegs (s : String) (rest : List String) (hs : s ≠ "")
    (hns : ¬ '/' ∈ s.data) : isRooted (joinSegs (s :: rest)) = false := by
  have hdata : ∃ tail, (joinSegs (s :: rest)).data = s.data ++ tail := by
    cases rest with
    | nil => exact ⟨[], by simp [joinSegs]⟩
    | cons t ts =>
      refine ⟨'/' :: (joinSegs (t :: ts)).data, ?_⟩
      rw [show joinSegs (s :: t :: ts) = s ++ "/" ++ joinSegs (t :: ts) from rfl,
        data_append, data_append]
      simp [show ("/" : String).data = ['/'] from rfl]
  obtain ⟨tail, htail⟩ := hdata
  cases hd : s.data with
  | nil => exact absurd (String.ext hd) hs
  | cons c cs =>
    have hc : ¬ c == '/' := by
      simp only [beq_iff_eq]
      intro hh
      exact hns (by simp [hd, hh])
    unfold isRooted
    rw [htail, hd]
    simpa using hc

/-- When every element is a real segment — non-empty, not `.` or `..`, and
slash-free — Go `path.Join` is exactly the slash-join: `Clean` changes
nothing. -/
theorem pathJoin_good (s0 : String) (rest : List String)
    (h : ∀ s ∈ s0 :: rest, s ≠ "" ∧ s ≠ "." ∧ s ≠ ".." ∧ ¬ '/' ∈ s.data) :
    pathJoin (s0 :: rest) = joinSegs (s0 :: rest) := by
  obtain ⟨h0e, h0d, h0dd, h0s⟩ := h s0 (by simp)
  have hgood : ∀ s ∈ s0 :: rest, s ≠ "" ∧ s ≠ "." ∧ s ≠ ".." :=
    fun s hs => ⟨(h s hs).1, (h s hs).2.1, (h s hs).2.2.1⟩
  have hnos : ∀ s ∈ s0 :: rest, ¬ '/' ∈ s.data := fun s hs => (h s hs).2.2.2
  have hdw : List.dropWhile (fun x => x == "") (s0 :: rest) = s0 :: rest := by
    rw [List.dropWhile_cons]
    simp [h0e]
  unfold pathJoin
  rw [hdw]
  show pathClean (joinSegs (s0 :: rest)) = joinSegs (s0 :: rest)
  unfold pathClean
  rw [if_neg (joinSegs_ne_empty s0 rest h0e),
    isRooted_joinSegs s0 rest h0e h0s]
  show (if joinSegs (cleanSegsAux false [] (splitSlash (joinSegs (s0 :: rest)))) = ""
      then "."
      else joinSegs (cleanSegsAux false [] (splitSlash (joinSegs (s0 :: rest))))) =
    joinSegs (s0 :: rest)
  rw [splitSlash_joinSegs (s0 :: rest) hnos (by simp),
    cleanSegsAux_good false (s0 :: rest) hgood [],
    List.reverse_nil, List.nil_append]
  rw [if_neg (joinSegs_ne_empty s0 rest h0e)]

theorem sendUserCustomEvent_ok (c : Client) (u : String)
    (ev : UserCustomEvent) (hu : u ≠ "") :
    Client.sendUserCustomEvent c u (some ev) =
      Except.ok { method := methodPost,
                  path := pathJoin ["users", pathEscape u, "event"],
                  body := JVal.obj [("event",
                    UserCustomEvent.marshalJSON ev)] } := by
  show (if u = "" then (Except.error "targetUserID should not be empty" :
          Except String Request)
        else Except.ok { method := methodPost,
                         path := pathJoin ["users", pathEscape u, "event"],
                         body := JVal.obj [("event",
                           UserCustomEvent.marshalJSON ev)] }) =
      Except.ok { method := methodPost,
                  path := pathJoin ["users", pathEscape u, "event"],
                  body := JVal.obj [("event",
                    UserCustomEvent.marshalJSON ev)] }
  rw [if_neg hu]

theorem joinSegs_three (a b c : String) :
    joinSegs [a, b, c] = a ++ "/" ++ b ++ "/" ++ c := by
  apply String.ext
  simp only [joinSegs, data_append, List.append_assoc]

theorem joinSegs_four (a b c d : String) :
    joinSegs [a, b, c, d] = a ++ "/" ++ b ++ "/" ++ c ++ "/" ++ d := by
  apply String.ext
  simp only [joinSegs, data_append, List.append_assoc]

/-! ### Claim C8 -/

/-- C8 counterexample: the claim's path template fails for a target user id
whose escaped segment is `.` — `url.PathEscape` leaves `"."` unchanged, and
`path.Join` (which `Clean`s its result) collapses the `.` segment, so the
issued path is `users/event`, not the template's `users/./event`. -/
theorem c8_path_cex :
    Client.sendUserCustomEvent Client.mk "." (some { type := "t" }) =
      Except.ok
        { method := methodPost, path := "users/event",
          body := JVal.obj [("event",
            UserCustomEvent.marshalJSON { type := "t" })] } ∧
    "users/" ++ pathEscape "." ++ "/event" = "users/./event" ∧
    ("users/event" : String) ≠ "users/./event" :=
  ⟨rfl, rfl, by decide⟩

set_option maxHeartbeats 2000000 in
/-- C8 amended: the request paths are built by percent-encoding each value
as a path segment and joining with Go `path.Join`, which `Clean`s the
joined path; whenever an escaped segment is none of `""`, `.` and `..`,
cleaning changes nothing, and the paths match the literal templates
`channels/{esc(type)}/{esc(id)}/event` and `users/{esc(id)}/event`.  The
concrete case of the claim holds: a channel of type `messaging` and id
`general/team` yields a POST to `channels/messaging/general%2Fteam/event`.
(When an escaped segment is `.` or `..` — only possible for the literal
ids `.` and `..` — `Clean` collapses it, as the counterexample shows.) -/
theorem c8_path_construction_amended (ch : Channel) (c : Client) (e : Event)
    (ev : UserCustomEvent) (u userID : String)
    (hu : pathEscape u ≠ "" ∧ pathEscape u ≠ "." ∧ pathEscape u ≠ "..")
    (ht : pathEscape ch.type ≠ "" ∧ pathEscape ch.type ≠ "." ∧
      pathEscape ch.type ≠ "..")
    (hi : pathEscape ch.id ≠ "" ∧ pathEscape ch.id ≠ "." ∧
      pathEscape ch.id ≠ "..") :
    (∃ r : Request × Event,
      Channel.sendEvent ch (some e) userID = Except.ok r ∧
      r.1.method = methodPost ∧
      r.1.path = "channels" ++ "/" ++ pathEscape ch.type ++ "/" ++
        pathEscape ch.id ++ "/" ++ "event") ∧
    (∃ r : Request,
      Client.sendUserCustomEvent c u (some ev) = Except.ok r ∧
      r.method = methodPost ∧
      r.path = "users" ++ "/" ++ pathEscape u ++ "/" ++ "event") ∧
    (Channel.sendEvent { type := "messaging", id := "general/team" }
        (some e) userID).map (fun r => r.1.path) =
      Except.ok "channels/messaging/general%2Fteam/event" := by
  obtain ⟨hu1, hu2, hu3⟩ := hu
  obtain ⟨ht1, ht2, ht3⟩ := ht
  obtain ⟨hi1, hi2, hi3⟩ := hi
  have hu0 : u ≠ "" := fun hh => hu1 (by rw [hh]; rfl)
  refine ⟨⟨_, rfl, rfl, ?_⟩, ?_, rfl⟩
  · show pathJoin ["channels", pathEscape ch.type, pathEscape ch.id, "event"] = _
    rw [pathJoin_good "channels" [pathEscape ch.type, pathEscape ch.id, "event"] ?_]
    · exact joinSegs_four "channels" (pathEscape ch.type) (pathEscape ch.id) "event"
    · intro s hs
      simp only [List.mem_cons, List.not_mem_nil, or_false] at hs
      rcases hs with h | h | h | h <;> subst h
      · exact ⟨by decide, by decide, by decide, by decide⟩
      · exact ⟨ht1, ht2, ht3, noSlash_pathEscape ch.type⟩
      · exact ⟨hi1, hi2, hi3, noSlash_pathEscape ch.id⟩
      · exact ⟨by decide, by decide, by decide, by decide⟩
  · refine ⟨{ method := methodPost,
              path := pathJoin ["users", pathEscape u, "event"],
              body := JVal.obj [("event", UserCustomEvent.marshalJSON ev)] },
      ?_, rfl, ?_⟩
    · exact sendUserCustomEvent_ok c u ev hu0
    · show pathJoin ["users", pathEscape u, "event"] = _
      rw [pathJoin_good "users" [pathEscape u, "event"] ?_]
      · exact joinSegs_three "users" (pathEscape u) "event"
      · intro s hs
        simp only [List.mem_cons, List.not_mem_nil, or_false] at hs
        rcases hs with h | h | h <;> subst h
        · exact ⟨by decide, by decide, by decide, by decide⟩
        · exact ⟨hu1, hu2, hu3, noSlash_pathEscape u⟩
        · exact ⟨by decide, by decide, by decide, by decide⟩

/-- C8 witness: concrete ids whose escaped segments are ordinary, checked
against the amended path templates. -/
theorem c8_path_construction_amended_witness :
    (pathEscape "bob" ≠ "" ∧ pathEscape "bob" ≠ "." ∧ pathEscape "bob" ≠ "..") ∧
    (pathEscape "messaging" ≠ "" ∧ pathEscape "messaging" ≠ "." ∧
      pathEscape "messaging" ≠ "..") ∧
    (pathEscape "general/team" ≠ "" ∧ pathEscape "general/team" ≠ "." ∧
      pathEscape "general/team" ≠ "..") ∧
    ((∃ r : Request × Event,
      Channel.sendEvent { type := "messaging", id := "general/team" }
        (some { type := "message.new" }) "bob" = Except.ok r ∧
      r.1.method = methodPost ∧
      r.1.path = "channels" ++ "/" ++ pathEscape "messaging" ++ "/" ++
        pathEscape "general/team" ++ "/" ++ "event") ∧
    (∃ r : Request,
      Client.sendUserCustomEvent Client.mk "bob"
        (some { type := "friend.request" }) = Except.ok r ∧
      r.method = methodPost ∧
      r.path = "users" ++ "/" ++ pathEscape "bob" ++ "/" ++ "event") ∧
    (Channel.sendEvent { type := "messaging", id := "general/team" }
        (some { type := "message.new" }) "bob").map (fun r => r.1.path) =
      Except.ok "channels/messaging/general%2Fteam/event") := by
  refine ⟨by decide, by decide, by decide, ?_⟩
  exact c8_path_construction_amended
    { type := "messaging", id := "general/team" } Client.mk
    { type := "message.new" } { type := "friend.request" } "bob" "bob"
    (by decide) (by decide) (by decide)

end StreamChat
